import Mathlib

/-!
# Verification of `UniformityFilter` (src/processors/uniformity_filter.py)

Shallow embedding of the uniformity-score calculator.  Python floats are
idealised as exact rationals for the data path; the square-root based score
is computed over the reals.  Fallible operations (list indexing that can
raise `IndexError`, the division `total_gain / (period - 1)` that can raise
`ZeroDivisionError`) are modelled by returning `Option`: `none` stands for a
raised exception.
-/

/-- Python's slice `l[-n:]`.  For `n = 0` this is `l[0:]`, i.e. the whole
list; for `n ≥ 1` it is the last `min n (len l)` elements (negative indices
clamp at the front). -/
def pySliceLast (l : List ℚ) (n : ℕ) : List ℚ :=
  if n = 0 then l else l.drop (l.length - n)

/-- Python's `round` to an integer: round half to even (banker's rounding),
on exact rationals. -/
def pyRoundInt (x : ℚ) : ℤ :=
  if Int.fract x = 1/2 then (if ⌊x⌋ % 2 = 0 then ⌊x⌋ else ⌊x⌋ + 1) else round x

/-- Python's `round(x, 1)`: round half to even at one decimal place. -/
def pyRound1 (x : ℚ) : ℚ :=
  (pyRoundInt (10 * x) : ℚ) / 10

/-- Python's `round` to an integer on reals (for the score channel, which
goes through `math.sqrt`): round half to even. -/
noncomputable def pyRoundIntR (x : ℝ) : ℤ :=
  if Int.fract x = 1/2 then (if ⌊x⌋ % 2 = 0 then ⌊x⌋ else ⌊x⌋ + 1) else round x

/-- Python's `round(x, 1)` on reals. -/
noncomputable def pyRound1R (x : ℝ) : ℝ :=
  (pyRoundIntR (10 * x) : ℝ) / 10

namespace UniformityFilter

/-- `prices_period = prices[-period:]` — the trailing evaluation window. -/
def prices_period (prices : List ℚ) (period : ℕ) : List ℚ :=
  pySliceLast prices period

/-- `base_price = prices_period[0]` (the value read when the window is
non-empty; `calculate` guards the empty case, where Python raises). -/
def base_price (prices : List ℚ) (period : ℕ) : ℚ :=
  (prices_period prices period).headD 0

/-- `cumulative_pcts`: for each window price,
`pct_change = ((price - base_price) / base_price) * 100`. -/
def cumulative_pcts (prices : List ℚ) (period : ℕ) : List ℚ :=
  (prices_period prices period).map
    (fun price => (price - base_price prices period) / base_price prices period * 100)

/-- `total_gain = cumulative_pcts[-1]` (the value read when the window is
non-empty). -/
def total_gain (prices : List ℚ) (period : ℕ) : ℚ :=
  (cumulative_pcts prices period).getLastD 0

/-- `daily_uniform_gain = total_gain / (period - 1)` (Python `period - 1`
is signed, hence the cast through `ℤ`). -/
def daily_uniform_gain (prices : List ℚ) (period : ℕ) : ℚ :=
  total_gain prices period / (((period : ℤ) - 1 : ℤ) : ℚ)

/-- `ideal_line = [i * daily_uniform_gain for i in range(period)]`. -/
def ideal_line (prices : List ℚ) (period : ℕ) : List ℚ :=
  (List.range period).map (fun (i : ℕ) => (i : ℚ) * daily_uniform_gain prices period)

/-- `total_deviation`: accumulated `abs(cumulative_pcts[i] - ideal_line[i])`
over `i in range(period)` (indexing is in bounds whenever `calculate`
reaches this loop; `calculate` guards the out-of-bounds case). -/
def total_deviation (prices : List ℚ) (period : ℕ) : ℚ :=
  ((List.range period).map
    (fun (i : ℕ) =>
      |(cumulative_pcts prices period).getD i 0 - (ideal_line prices period).getD i 0|)).sum

/-- `max_possible_deviation`: accumulated
`total_gain if i < period - 1 else 0` over `i in range(period)`
(Python `period - 1` is signed). -/
def max_possible_deviation (prices : List ℚ) (period : ℕ) : ℚ :=
  ((List.range period).map
    (fun (i : ℕ) => if (i : ℤ) < (period : ℤ) - 1 then total_gain prices period else 0)).sum

/-- `normalized_deviation = total_deviation / max_possible_deviation` when
the denominator is positive, else `0`. -/
def normalized_deviation (prices : List ℚ) (period : ℕ) : ℚ :=
  if 0 < max_possible_deviation prices period then
    total_deviation prices period / max_possible_deviation prices period
  else 0

/-- `raw_score = 100 * (1 - math.sqrt(min(normalized_deviation, 1)))`. -/
noncomputable def raw_score (prices : List ℚ) (period : ℕ) : ℝ :=
  100 * (1 - Real.sqrt ((min (normalized_deviation prices period) 1 : ℚ) : ℝ))

/-- `uniformity_score = min(100, max(0, round(raw_score, 1)))`. -/
noncomputable def uniformity_score (prices : List ℚ) (period : ℕ) : ℝ :=
  min 100 (max 0 (pyRound1R (raw_score prices period)))

/-- `UniformityFilter.calculate(prices, period)`.  Returns `none` exactly
when the Python code would raise: `prices_period[0]` on an empty window
(only possible for `period = 0` with empty `prices`),
`total_gain / (period - 1)` for `period = 1`, and the (unreachable)
out-of-bounds read `cumulative_pcts[i]` in the deviation loop. -/
noncomputable def calculate (prices : List ℚ) (period : ℕ) : Option (ℝ × ℚ) :=
  if prices.length < period then some (0, 0)
  else if prices_period prices period = [] then none
  else if base_price prices period ≤ 0 then some (0, 0)
  else if total_gain prices period ≤ 0 then
    some (0, pyRound1 (total_gain prices period))
  else if period = 1 then none
  else if (cumulative_pcts prices period).length < period then none
  else some (uniformity_score prices period, pyRound1 (total_gain prices period))

/-- `UniformityFilter.get_score_category(score, gain)`. -/
def get_score_category (score : ℚ) (gain : ℚ) : String :=
  if gain ≤ 0 then "Negative Return 📉"
  else if 90 ≤ score then "Perfect 🏆"
  else if 75 ≤ score then "Excellent 📈"
  else if 60 ≤ score then "Good 📊"
  else if 45 ≤ score then "Fair 📉"
  else if 20 ≤ score then "Poor ⚠️"
  else "Bad ❌"

end UniformityFilter

/-- The concrete series of spec scenario 1: 30 values rising by 2 each step
from 100 to 158. -/
def linear_prices : List ℚ :=
  [100, 102, 104, 106, 108, 110, 112, 114, 116, 118, 120, 122, 124, 126, 128,
   130, 132, 134, 136, 138, 140, 142, 144, 146, 148, 150, 152, 154, 156, 158]

namespace UniformityFilter

lemma prices_period_length (prices : List ℚ) (period : ℕ) (h0 : 0 < period)
    (hlen : period ≤ prices.length) : (prices_period prices period).length = period := by
  unfold prices_period pySliceLast
  rw [if_neg (Nat.pos_iff_ne_zero.mp h0), List.length_drop]
  omega

lemma prices_period_ne_nil (prices : List ℚ) (period : ℕ) (h0 : 0 < period)
    (hlen : period ≤ prices.length) : prices_period prices period ≠ [] := by
  intro hnil
  have hl := prices_period_length prices period h0 hlen
  rw [hnil] at hl
  simp at hl
  omega

lemma cumulative_pcts_length (prices : List ℚ) (period : ℕ) :
    (cumulative_pcts prices period).length = (prices_period prices period).length := by
  unfold cumulative_pcts
  rw [List.length_map]

lemma total_gain_period_one (prices : List ℚ) (h : 1 ≤ prices.length) :
    total_gain prices 1 = 0 := by
  obtain ⟨x, hx⟩ := List.length_eq_one.mp (prices_period_length prices 1 one_pos h)
  unfold total_gain cumulative_pcts base_price
  rw [hx]
  simp

end UniformityFilter

/-- C1: for every prices list and positive period, if `len(prices) < period`,
or `len(prices) ≥ period` and the first price of the evaluated window is
`≤ 0`, then `UniformityFilter.calculate` returns `(0.0, 0.0)` without
raising. -/
theorem c1_degenerate_cases (prices : List ℚ) (period : ℕ) (hper : 0 < period)
    (h : prices.length < period ∨
      (period ≤ prices.length ∧ UniformityFilter.base_price prices period ≤ 0)) :
    UniformityFilter.calculate prices period = some (0, 0) := by
  unfold UniformityFilter.calculate
  rcases h with h | ⟨hlen, hbase⟩
  · rw [if_pos h]
  · rw [if_neg (not_lt.mpr hlen),
      if_neg (UniformityFilter.prices_period_ne_nil prices period hper hlen), if_pos hbase]

/-- Witness for C1: a window whose base price is negative. -/
theorem c1_degenerate_cases_witness :
    UniformityFilter.calculate [(-5 : ℚ), 2] 2 = some (0, 0) :=
  c1_degenerate_cases [(-5 : ℚ), 2] 2 (by decide) (Or.inr ⟨by decide,
    by norm_num [UniformityFilter.base_price, UniformityFilter.prices_period, pySliceLast]⟩)

/-- C2: with adequate length and positive base, a non-positive total gain
yields `(0.0, round(total_gain, 1))` — the gain is still reported. -/
theorem c2_nonpositive_gain_reported (prices : List ℚ) (period : ℕ) (hper : 0 < period)
    (hlen : period ≤ prices.length) (hbase : 0 < UniformityFilter.base_price prices period)
    (hgain : UniformityFilter.total_gain prices period ≤ 0) :
    UniformityFilter.calculate prices period =
      some (0, pyRound1 (UniformityFilter.total_gain prices period)) := by
  unfold UniformityFilter.calculate
  rw [if_neg (not_lt.mpr hlen),
    if_neg (UniformityFilter.prices_period_ne_nil prices period hper hlen),
    if_neg (not_le.mpr hbase), if_pos hgain]

/-- Witness for C2: prices fall from 100 to 90, the gain -10.0 is reported. -/
theorem c2_nonpositive_gain_reported_witness :
    UniformityFilter.calculate [(100 : ℚ), 90] 2 = some (0, -10) := by
  have h := c2_nonpositive_gain_reported [(100 : ℚ), 90] 2 (by decide) (by decide)
    (by norm_num [UniformityFilter.base_price, UniformityFilter.prices_period, pySliceLast])
    (by norm_num [UniformityFilter.total_gain, UniformityFilter.cumulative_pcts,
      UniformityFilter.base_price, UniformityFilter.prices_period, pySliceLast])
  rw [h, show pyRound1 (UniformityFilter.total_gain [(100 : ℚ), 90] 2) = -10 from by
    norm_num [UniformityFilter.total_gain, UniformityFilter.cumulative_pcts,
      UniformityFilter.base_price, UniformityFilter.prices_period, pySliceLast,
      pyRound1, pyRoundInt, Int.fract, round_eq]]

/-- C9: for every non-empty prices list, `calculate(prices, 1)` returns
`(0, 0.0)`: the window's cumulative change is 0, so the non-positive-gain
branch returns before the division by `period - 1`. -/
theorem c9_period_one (prices : List ℚ) (h : prices ≠ []) :
    UniformityFilter.calculate prices 1 = some (0, 0) := by
  have hlen : 1 ≤ prices.length := List.length_pos.mpr h
  have hg := UniformityFilter.total_gain_period_one prices hlen
  unfold UniformityFilter.calculate
  rw [if_neg (not_lt.mpr hlen),
    if_neg (UniformityFilter.prices_period_ne_nil prices 1 one_pos hlen)]
  by_cases hbase : UniformityFilter.base_price prices 1 ≤ 0
  · rw [if_pos hbase]
  · rw [if_neg hbase, if_pos (le_of_eq hg), hg,
      show pyRound1 (0 : ℚ) = 0 from by norm_num [pyRound1, pyRoundInt, Int.fract, round_eq]]

/-- Witness for C9: a one-element list at period 1. -/
theorem c9_period_one_witness : UniformityFilter.calculate [(5 : ℚ)] 1 = some (0, 0) :=
  c9_period_one [(5 : ℚ)] (by decide)

/-- C7: `get_score_category` maps `(score, gain)` to one of seven ordered
labels with first-match-wins precedence; `gain ≤ 0` dominates every score. -/
theorem c7_get_score_category_cases (s g : ℚ) :
    (g ≤ 0 → UniformityFilter.get_score_category s g = "Negative Return 📉") ∧
    (0 < g → 90 ≤ s → UniformityFilter.get_score_category s g = "Perfect 🏆") ∧
    (0 < g → 75 ≤ s → s < 90 → UniformityFilter.get_score_category s g = "Excellent 📈") ∧
    (0 < g → 60 ≤ s → s < 75 → UniformityFilter.get_score_category s g = "Good 📊") ∧
    (0 < g → 45 ≤ s → s < 60 → UniformityFilter.get_score_category s g = "Fair 📉") ∧
    (0 < g → 20 ≤ s → s < 45 → UniformityFilter.get_score_category s g = "Poor ⚠️") ∧
    (0 < g → s < 20 → UniformityFilter.get_score_category s g = "Bad ❌") := by
  refine ⟨fun hg => ?_, fun hg h90 => ?_, fun hg h75 h90 => ?_, fun hg h60 h75 => ?_,
    fun hg h45 h60 => ?_, fun hg h20 h45 => ?_, fun hg h20 => ?_⟩ <;>
      unfold UniformityFilter.get_score_category <;>
      split_ifs <;> first | rfl | linarith

/-- Witness for C7: a high score with positive gain is Perfect, while the
same score with non-positive gain is Negative Return. -/
theorem c7_get_score_category_cases_witness :
    UniformityFilter.get_score_category 95 5 = "Perfect 🏆" ∧
    UniformityFilter.get_score_category 95 (-1) = "Negative Return 📉" :=
  ⟨(c7_get_score_category_cases 95 5).2.1 (by norm_num) (by norm_num),
    (c7_get_score_category_cases 95 (-1)).1 (by norm_num)⟩

/-- C3: the score component of any pair returned by `calculate` lies in
`[0, 100]`. -/
theorem c3_score_in_closed_range (prices : List ℚ) (period : ℕ) (s : ℝ) (g : ℚ)
    (h : UniformityFilter.calculate prices period = some (s, g)) : 0 ≤ s ∧ s ≤ 100 := by
  unfold UniformityFilter.calculate at h
  split_ifs at h
  all_goals simp only [Option.some.injEq, Prod.mk.injEq] at h
  all_goals obtain ⟨hs, -⟩ := h
  all_goals subst hs
  all_goals try exact ⟨le_refl 0, by norm_num⟩
  all_goals unfold UniformityFilter.uniformity_score
  all_goals exact ⟨le_min (by norm_num) (le_max_left 0 _), min_le_left _ _⟩

/-- Witness for C3: the degenerate empty-list result has its score in range. -/
theorem c3_score_in_closed_range_witness : (0 : ℝ) ≤ 0 ∧ (0 : ℝ) ≤ 100 :=
  c3_score_in_closed_range [] 1 0 0 (c1_degenerate_cases [] 1 (by decide) (Or.inl (by decide)))

namespace UniformityFilter

lemma two_le_period_of_pos_gain (prices : List ℚ) (period : ℕ) (hper : 0 < period)
    (hlen : period ≤ prices.length) (hgain : 0 < total_gain prices period) :
    2 ≤ period := by
  by_contra hlt
  have h1 : period = 1 := by omega
  subst h1
  rw [total_gain_period_one prices hlen] at hgain
  exact lt_irrefl 0 hgain

lemma max_possible_deviation_eq (prices : List ℚ) (period : ℕ) (h : 1 ≤ period) :
    max_possible_deviation prices period =
      total_gain prices period * ((period : ℚ) - 1) := by
  cases period with
  | zero => omega
  | succ m =>
    unfold max_possible_deviation
    rw [List.range_succ, List.map_append, List.sum_append]
    have h2 : ¬((m : ℤ) < ((m + 1 : ℕ) : ℤ) - 1) := by push_cast; omega
    have h3 : ∀ i ∈ List.range m,
        (if (i : ℤ) < ((m + 1 : ℕ) : ℤ) - 1 then total_gain prices (m + 1) else 0) =
          total_gain prices (m + 1) := by
      intro i hi
      have him := List.mem_range.mp hi
      rw [if_pos (by push_cast; omega)]
    have h4 : (List.range m).map
          (fun (i : ℕ) =>
            if (i : ℤ) < ((m + 1 : ℕ) : ℤ) - 1 then total_gain prices (m + 1) else 0) =
        (List.range m).map (fun _ => total_gain prices (m + 1)) :=
      List.map_congr_left h3
    rw [h4, List.map_const', List.sum_replicate, List.length_range]
    simp only [List.map_cons, List.map_nil, if_neg h2, List.sum_cons, List.sum_nil]
    rw [nsmul_eq_mul]
    push_cast
    ring

end UniformityFilter

/-- C5: `calculate` never raises for well-typed input: for every prices list
and positive period, evaluation reaches a returned pair — no list access or
division is evaluated out of its domain (in particular the division by
`period - 1` is never a division by zero, including when `period = 1`). -/
theorem c5_never_raises (prices : List ℚ) (period : ℕ) (hper : 0 < period) :
    (UniformityFilter.calculate prices period).isSome = true := by
  unfold UniformityFilter.calculate
  split_ifs with h1 h2 h3 h4 h5 h6
  · rfl
  · exact absurd h2 (UniformityFilter.prices_period_ne_nil prices period hper (le_of_not_lt h1))
  · rfl
  · rfl
  · subst h5
    exact absurd (UniformityFilter.total_gain_period_one prices (le_of_not_lt h1)).le h4
  · rw [UniformityFilter.cumulative_pcts_length,
      UniformityFilter.prices_period_length prices period hper (le_of_not_lt h1)] at h6
    exact absurd h6 (lt_irrefl period)
  · rfl

/-- Witness for C5: evaluation is defined on an empty list at period 1. -/
theorem c5_never_raises_witness : (UniformityFilter.calculate [] 1).isSome = true :=
  c5_never_raises [] 1 (by decide)

/-- C8: whenever `calculate` reaches the normalization step (adequate
length, positive base, positive gain), `period ≥ 2`,
`max_possible_deviation = total_gain * (period - 1) > 0`, and
`normalized_deviation` is the actual quotient — the zero-denominator
else-branch is not taken. -/
theorem c8_normalization_denominator_positive (prices : List ℚ) (period : ℕ)
    (hper : 0 < period) (hlen : period ≤ prices.length)
    (_hbase : 0 < UniformityFilter.base_price prices period)
    (hgain : 0 < UniformityFilter.total_gain prices period) :
    2 ≤ period ∧
    UniformityFilter.max_possible_deviation prices period =
      UniformityFilter.total_gain prices period * ((period : ℚ) - 1) ∧
    0 < UniformityFilter.max_possible_deviation prices period ∧
    UniformityFilter.normalized_deviation prices period =
      UniformityFilter.total_deviation prices period /
        UniformityFilter.max_possible_deviation prices period := by
  have h2 := UniformityFilter.two_le_period_of_pos_gain prices period hper hlen hgain
  have heq := UniformityFilter.max_possible_deviation_eq prices period (by omega)
  have hpos : 0 < UniformityFilter.max_possible_deviation prices period := by
    rw [heq]
    apply mul_pos hgain
    have hc : (2 : ℚ) ≤ (period : ℚ) := by exact_mod_cast h2
    linarith
  refine ⟨h2, heq, hpos, ?_⟩
  unfold UniformityFilter.normalized_deviation
  rw [if_pos hpos]

/-- Witness for C8 at `prices = [1, 2]`, `period = 2`. -/
theorem c8_normalization_denominator_positive_witness :
    2 ≤ 2 ∧
    UniformityFilter.max_possible_deviation [(1 : ℚ), 2] 2 =
      UniformityFilter.total_gain [(1 : ℚ), 2] 2 * ((2 : ℚ) - 1) ∧
    0 < UniformityFilter.max_possible_deviation [(1 : ℚ), 2] 2 ∧
    UniformityFilter.normalized_deviation [(1 : ℚ), 2] 2 =
      UniformityFilter.total_deviation [(1 : ℚ), 2] 2 /
        UniformityFilter.max_possible_deviation [(1 : ℚ), 2] 2 := by
  have h := c8_normalization_denominator_positive [(1 : ℚ), 2] 2 (by decide) (by decide)
    (by norm_num [UniformityFilter.base_price, UniformityFilter.prices_period, pySliceLast])
    (by norm_num [UniformityFilter.total_gain, UniformityFilter.cumulative_pcts,
      UniformityFilter.base_price, UniformityFilter.prices_period, pySliceLast])
  simpa using h

lemma pyRoundIntR_intCast (n : ℤ) : pyRoundIntR (n : ℝ) = n := by
  unfold pyRoundIntR
  rw [Int.fract_intCast, if_neg (by norm_num), round_intCast]

lemma pyRound1R_hundred : pyRound1R (100 : ℝ) = 100 := by
  unfold pyRound1R
  rw [show (10 : ℝ) * 100 = ((1000 : ℤ) : ℝ) by norm_num, pyRoundIntR_intCast]
  norm_num

namespace UniformityFilter

lemma uniformity_score_of_zero_dev (prices : List ℚ) (period : ℕ)
    (h : normalized_deviation prices period = 0) :
    uniformity_score prices period = 100 := by
  unfold uniformity_score raw_score
  rw [h, min_eq_left (by norm_num : (0 : ℚ) ≤ 1), Rat.cast_zero, Real.sqrt_zero]
  rw [show (100 : ℝ) * (1 - 0) = 100 by norm_num, pyRound1R_hundred]
  rw [max_eq_right (by norm_num : (0 : ℝ) ≤ 100), min_self]

lemma max_possible_deviation_pos (prices : List ℚ) (period : ℕ) (h2 : 2 ≤ period)
    (hgain : 0 < total_gain prices period) :
    0 < max_possible_deviation prices period := by
  rw [max_possible_deviation_eq prices period (by omega)]
  apply mul_pos hgain
  have hc : (2 : ℚ) ≤ (period : ℚ) := by exact_mod_cast h2
  linarith

lemma calculate_of_linear_cum (prices : List ℚ) (period : ℕ) (hper : 0 < period)
    (hlen : period ≤ prices.length) (hbase : 0 < base_price prices period)
    (hgain : 0 < total_gain prices period)
    (hlin : ∀ i < period, (cumulative_pcts prices period).getD i 0 =
      (ideal_line prices period).getD i 0) :
    total_deviation prices period = 0 ∧
    calculate prices period = some (100, pyRound1 (total_gain prices period)) := by
  have h2 := two_le_period_of_pos_gain prices period hper hlen hgain
  have hdev : total_deviation prices period = 0 := by
    unfold total_deviation
    apply List.sum_eq_zero
    intro x hx
    obtain ⟨i, hi, rfl⟩ := List.mem_map.mp hx
    rw [hlin i (List.mem_range.mp hi), sub_self, abs_zero]
  have hpos := max_possible_deviation_pos prices period h2 hgain
  have hnd : normalized_deviation prices period = 0 := by
    unfold normalized_deviation
    rw [if_pos hpos, hdev, zero_div]
  refine ⟨hdev, ?_⟩
  unfold calculate
  rw [if_neg (not_lt.mpr hlen), if_neg (prices_period_ne_nil prices period hper hlen),
    if_neg (not_le.mpr hbase), if_neg (not_le.mpr hgain),
    if_neg (by omega : ¬period = 1),
    if_neg (show ¬(cumulative_pcts prices period).length < period by
      rw [cumulative_pcts_length, prices_period_length prices period hper hlen]
      exact lt_irrefl period),
    uniformity_score_of_zero_dev prices period hnd]

end UniformityFilter

/-- C4: whenever the cumulative percentage-change curve equals the ideal
line at every index and the total gain is positive, `total_deviation` is 0
and `calculate` returns the score 100.0 together with the rounded gain;
witnessed below at the 30-term +2-per-step series, which returns
`(100.0, 58.0)`. -/
theorem c4_linear_curve_scores_100 (prices : List ℚ) (period : ℕ) (hper : 0 < period)
    (hlen : period ≤ prices.length) (hbase : 0 < UniformityFilter.base_price prices period)
    (hgain : 0 < UniformityFilter.total_gain prices period)
    (hlin : ∀ i < period, (UniformityFilter.cumulative_pcts prices period).getD i 0 =
      (UniformityFilter.ideal_line prices period).getD i 0) :
    UniformityFilter.total_deviation prices period = 0 ∧
    UniformityFilter.calculate prices period =
      some (100, pyRound1 (UniformityFilter.total_gain prices period)) :=
  UniformityFilter.calculate_of_linear_cum prices period hper hlen hbase hgain hlin

/-- Witness for C4: the concrete scenario `prices = [100, 102, ..., 158]`,
`period = 30`, yields exactly `(100.0, 58.0)`. -/
theorem c4_linear_curve_scores_100_witness :
    UniformityFilter.calculate linear_prices 30 = some (100, 58) := by
  have hwin : UniformityFilter.prices_period linear_prices 30 = linear_prices := by
    norm_num [UniformityFilter.prices_period, pySliceLast, linear_prices]
  have hbase : UniformityFilter.base_price linear_prices 30 = 100 := by
    rw [UniformityFilter.base_price, hwin, linear_prices]
    rfl
  have hcum : UniformityFilter.cumulative_pcts linear_prices 30 =
      [0, 2, 4, 6, 8, 10, 12, 14, 16, 18, 20, 22, 24, 26, 28,
       30, 32, 34, 36, 38, 40, 42, 44, 46, 48, 50, 52, 54, 56, 58] := by
    unfold UniformityFilter.cumulative_pcts
    rw [hwin, hbase, linear_prices]
    norm_num
  have hgain : UniformityFilter.total_gain linear_prices 30 = 58 := by
    rw [UniformityFilter.total_gain, hcum]
    rfl
  have hdaily : UniformityFilter.daily_uniform_gain linear_prices 30 = 2 := by
    rw [UniformityFilter.daily_uniform_gain, hgain]
    norm_num
  have hideal : UniformityFilter.ideal_line linear_prices 30 =
      [0, 2, 4, 6, 8, 10, 12, 14, 16, 18, 20, 22, 24, 26, 28,
       30, 32, 34, 36, 38, 40, 42, 44, 46, 48, 50, 52, 54, 56, 58] := by
    unfold UniformityFilter.ideal_line
    rw [hdaily, show List.range 30 =
      [0, 1, 2, 3, 4, 5, 6, 7, 8, 9, 10, 11, 12, 13, 14,
       15, 16, 17, 18, 19, 20, 21, 22, 23, 24, 25, 26, 27, 28, 29] from rfl]
    norm_num
  have hlin : ∀ i < 30, (UniformityFilter.cumulative_pcts linear_prices 30).getD i 0 =
      (UniformityFilter.ideal_line linear_prices 30).getD i 0 := by
    intro i hi
    rw [hcum, hideal]
  have h := c4_linear_curve_scores_100 linear_prices 30 (by norm_num)
    (by rw [linear_prices]; norm_num) (by rw [hbase]; norm_num) (by rw [hgain]; norm_num) hlin
  rw [h.2, hgain, show pyRound1 (58 : ℚ) = 58 from by
    norm_num [pyRound1, pyRoundInt, Int.fract, round_eq]]

lemma pyRoundIntR_le (x : ℝ) : (pyRoundIntR x : ℝ) ≤ x + 1/2 := by
  unfold pyRoundIntR
  split_ifs with h1 h2
  · have hf := Int.floor_le x
    linarith
  · unfold Int.fract at h1
    push_cast
    linarith
  · rw [round_eq]
    have hf := Int.floor_le (x + 1/2)
    push_cast at hf ⊢
    linarith

lemma pyRound1R_le (x : ℝ) : pyRound1R x ≤ x + 1/20 := by
  unfold pyRound1R
  have h := pyRoundIntR_le (10 * x)
  linarith

lemma getD_map_of_lt {α β : Type} (f : α → β) (a : α) (b : β) :
    ∀ (l : List α) (i : ℕ), i < l.length → (l.map f).getD i b = f (l.getD i a)
  | [], i, h => absurd h (by simp)
  | _ :: _, 0, _ => rfl
  | _ :: xs, (i + 1), h => by
    simp only [List.map_cons, List.getD_cons_succ]
    exact getD_map_of_lt f a b xs i (by simpa using h)

lemma headD_eq_getD (l : List ℚ) : l.headD 0 = l.getD 0 0 := by
  cases l <;> rfl

lemma getD_of_arith (w : List ℚ) (d : ℚ)
    (hstep : ∀ i, i + 1 < w.length → w.getD (i + 1) 0 = w.getD i 0 + d) :
    ∀ i, i < w.length → w.getD i 0 = w.getD 0 0 + i * d := by
  intro i
  induction i with
  | zero => intro _; simp
  | succ k ih =>
    intro h
    rw [hstep k h, ih (by omega)]
    push_cast
    ring

namespace UniformityFilter

lemma total_gain_eq_getD (prices : List ℚ) (period : ℕ) (hper : 0 < period)
    (hlen : period ≤ prices.length) :
    total_gain prices period = (cumulative_pcts prices period).getD (period - 1) 0 := by
  have hl : (cumulative_pcts prices period).length = period := by
    rw [cumulative_pcts_length, prices_period_length prices period hper hlen]
  unfold total_gain
  rw [List.getLastD_eq_getLast?, List.getLast?_eq_getElem?, hl,
    List.getD_eq_getD_get?, List.get?_eq_getElem?]

lemma cumulative_pcts_getD (prices : List ℚ) (period : ℕ) (hper : 0 < period)
    (hlen : period ≤ prices.length) (i : ℕ) (hi : i < period) :
    (cumulative_pcts prices period).getD i 0 =
      ((prices_period prices period).getD i 0 - base_price prices period) /
        base_price prices period * 100 := by
  unfold cumulative_pcts
  exact getD_map_of_lt _ 0 0 (prices_period prices period) i
    (by rw [prices_period_length prices period hper hlen]; exact hi)

lemma ideal_line_getD (prices : List ℚ) (period : ℕ) (i : ℕ) (hi : i < period) :
    (ideal_line prices period).getD i 0 = (i : ℚ) * daily_uniform_gain prices period := by
  unfold ideal_line
  rw [getD_map_of_lt _ 0 0 (List.range period) i (by simpa using hi)]
  have h1 : (List.range period).getD i 0 = i := by
    simp [List.getD_eq_getD_get?, List.get?_eq_getElem?, List.getElem?_range hi]
  rw [h1]

end UniformityFilter

namespace UniformityFilter

lemma calculate_of_arith (prices : List ℚ) (period : ℕ) (d : ℚ) (hper : 0 < period)
    (hlen : period ≤ prices.length) (hbase : 0 < base_price prices period)
    (hgain : 0 < total_gain prices period)
    (hstep : ∀ i, i + 1 < period →
      (prices_period prices period).getD (i + 1) 0 =
        (prices_period prices period).getD i 0 + d) :
    (∀ i < period, (cumulative_pcts prices period).getD i 0 =
      (ideal_line prices period).getD i 0) ∧
    total_deviation prices period = 0 ∧
    calculate prices period = some (100, pyRound1 (total_gain prices period)) := by
  have hwl : (prices_period prices period).length = period :=
    prices_period_length prices period hper hlen
  have h2 : 2 ≤ period := two_le_period_of_pos_gain prices period hper hlen hgain
  have harith : ∀ i, i < period →
      (prices_period prices period).getD i 0 =
        (prices_period prices period).getD 0 0 + i * d := by
    have h := getD_of_arith (prices_period prices period) d
      (fun i hi => hstep i (by rwa [hwl] at hi))
    intro i hi
    exact h i (by rwa [hwl])
  have hb0 : base_price prices period = (prices_period prices period).getD 0 0 :=
    headD_eq_getD _
  have hcum : ∀ i < period, (cumulative_pcts prices period).getD i 0 =
      (i : ℚ) * (d / base_price prices period * 100) := by
    intro i hi
    rw [cumulative_pcts_getD prices period hper hlen i hi, harith i hi, ← hb0]
    ring
  have hgain_eq : total_gain prices period =
      ((period : ℚ) - 1) * (d / base_price prices period * 100) := by
    rw [total_gain_eq_getD prices period hper hlen, hcum (period - 1) (by omega),
      Nat.cast_sub (by omega : 1 ≤ period)]
    push_cast
    ring
  have hne : (period : ℚ) - 1 ≠ 0 := by
    have hc : (2 : ℚ) ≤ (period : ℚ) := by exact_mod_cast h2
    have hone : (period : ℚ) ≠ 1 := by
      intro h1
      rw [h1] at hc
      norm_num at hc
    exact sub_ne_zero.mpr hone
  have hdaily : daily_uniform_gain prices period = d / base_price prices period * 100 := by
    unfold daily_uniform_gain
    rw [hgain_eq, show (((period : ℤ) - 1 : ℤ) : ℚ) = (period : ℚ) - 1 by push_cast; ring,
      mul_comm, mul_div_assoc, div_self hne, mul_one]
  have hlin : ∀ i < period, (cumulative_pcts prices period).getD i 0 =
      (ideal_line prices period).getD i 0 := by
    intro i hi
    rw [hcum i hi, ideal_line_getD prices period i hi, hdaily]
  obtain ⟨hdev, hcalc⟩ := calculate_of_linear_cum prices period hper hlen hbase hgain hlin
  exact ⟨hlin, hdev, hcalc⟩

end UniformityFilter

/-- C6 counterexample: the prices `[100, 200, 400]` grow by a constant
percentage (+100%) each step and have positive total gain, yet the
cumulative percentage-change curve does not equal the ideal line
(`cum[1] = 100` versus `ideal[1] = 150`), the total deviation is 50 ≠ 0,
and the returned uniformity score is strictly below 100. -/
theorem c6_constant_percentage_counterexample :
    (200 : ℚ) / 100 = 2 ∧ (400 : ℚ) / 200 = 2 ∧
    0 < UniformityFilter.total_gain [(100 : ℚ), 200, 400] 3 ∧
    (UniformityFilter.cumulative_pcts [(100 : ℚ), 200, 400] 3).getD 1 0 = 100 ∧
    (UniformityFilter.ideal_line [(100 : ℚ), 200, 400] 3).getD 1 0 = 150 ∧
    UniformityFilter.total_deviation [(100 : ℚ), 200, 400] 3 = 50 ∧
    UniformityFilter.uniformity_score [(100 : ℚ), 200, 400] 3 < 100 ∧
    UniformityFilter.calculate [(100 : ℚ), 200, 400] 3 =
      some (UniformityFilter.uniformity_score [(100 : ℚ), 200, 400] 3, 300) := by
  have hwin : UniformityFilter.prices_period [(100 : ℚ), 200, 400] 3 = [100, 200, 400] := by
    norm_num [UniformityFilter.prices_period, pySliceLast]
  have hbase : UniformityFilter.base_price [(100 : ℚ), 200, 400] 3 = 100 := by
    rw [UniformityFilter.base_price, hwin]
    rfl
  have hcum : UniformityFilter.cumulative_pcts [(100 : ℚ), 200, 400] 3 = [0, 100, 300] := by
    unfold UniformityFilter.cumulative_pcts
    rw [hwin, hbase]
    norm_num
  have hgain : UniformityFilter.total_gain [(100 : ℚ), 200, 400] 3 = 300 := by
    rw [UniformityFilter.total_gain, hcum]
    rfl
  have hdaily : UniformityFilter.daily_uniform_gain [(100 : ℚ), 200, 400] 3 = 150 := by
    rw [UniformityFilter.daily_uniform_gain, hgain]
    norm_num
  have hideal : UniformityFilter.ideal_line [(100 : ℚ), 200, 400] 3 = [0, 150, 300] := by
    unfold UniformityFilter.ideal_line
    rw [hdaily, show List.range 3 = [0, 1, 2] from rfl]
    norm_num
  have hdev : UniformityFilter.total_deviation [(100 : ℚ), 200, 400] 3 = 50 := by
    unfold UniformityFilter.total_deviation
    rw [show List.range 3 = [0, 1, 2] from rfl, hcum, hideal]
    simp only [List.map_cons, List.map_nil, List.getD_cons_zero, List.getD_cons_succ,
      List.sum_cons, List.sum_nil]
    rw [show |(0 : ℚ) - 0| = 0 by simp,
      show |(100 : ℚ) - 150| = 50 by
        rw [abs_sub_comm, abs_of_nonneg (by norm_num : (0 : ℚ) ≤ 150 - 100)]; norm_num,
      show |(300 : ℚ) - 300| = 0 by simp]
    norm_num
  have hmax : UniformityFilter.max_possible_deviation [(100 : ℚ), 200, 400] 3 = 600 := by
    unfold UniformityFilter.max_possible_deviation
    rw [show List.range 3 = [0, 1, 2] from rfl, hgain]
    norm_num
  have hnd : UniformityFilter.normalized_deviation [(100 : ℚ), 200, 400] 3 = 1/12 := by
    unfold UniformityFilter.normalized_deviation
    rw [hdev, hmax]
    norm_num
  have hsqrt : (1/4 : ℝ) ≤ Real.sqrt (((1/12 : ℚ) : ℝ)) := by
    rw [Real.le_sqrt' (by norm_num)]
    push_cast
    norm_num
  have hraw : UniformityFilter.raw_score [(100 : ℚ), 200, 400] 3 ≤ 75 := by
    unfold UniformityFilter.raw_score
    rw [hnd, min_eq_left (by norm_num : (1/12 : ℚ) ≤ 1)]
    linarith
  have hscore : UniformityFilter.uniformity_score [(100 : ℚ), 200, 400] 3 < 100 := by
    unfold UniformityFilter.uniformity_score
    have hle := pyRound1R_le (UniformityFilter.raw_score [(100 : ℚ), 200, 400] 3)
    exact lt_of_le_of_lt (min_le_right _ _) (max_lt (by norm_num) (by linarith))
  refine ⟨by norm_num, by norm_num, by rw [hgain]; norm_num, by rw [hcum]; rfl,
    by rw [hideal]; rfl, hdev, hscore, ?_⟩
  unfold UniformityFilter.calculate
  rw [if_neg (by norm_num), if_neg (by rw [hwin]; simp), if_neg (by rw [hbase]; norm_num),
    if_neg (by rw [hgain]; norm_num), if_neg (by norm_num),
    if_neg (by rw [UniformityFilter.cumulative_pcts_length, hwin]; norm_num),
    show pyRound1 (UniformityFilter.total_gain [(100 : ℚ), 200, 400] 3) = 300 from by
      rw [hgain]; norm_num [pyRound1, pyRoundInt, Int.fract, round_eq]]

/-- C6 (amended): for every window whose prices grow by a constant
increment each step (equal absolute price increase, which makes the
cumulative percentage-change curve linear) with positive total gain, the
cumulative curve equals the ideal line at every index, `total_deviation`
is 0, and `calculate` returns the score 100.0. -/
theorem c6_constant_increment_scores_100 (prices : List ℚ) (period : ℕ) (d : ℚ)
    (hper : 0 < period) (hlen : period ≤ prices.length)
    (hbase : 0 < UniformityFilter.base_price prices period)
    (hgain : 0 < UniformityFilter.total_gain prices period)
    (hstep : ∀ i, i + 1 < period →
      (UniformityFilter.prices_period prices period).getD (i + 1) 0 =
        (UniformityFilter.prices_period prices period).getD i 0 + d) :
    (∀ i < period, (UniformityFilter.cumulative_pcts prices period).getD i 0 =
      (UniformityFilter.ideal_line prices period).getD i 0) ∧
    UniformityFilter.total_deviation prices period = 0 ∧
    UniformityFilter.calculate prices period =
      some (100, pyRound1 (UniformityFilter.total_gain prices period)) :=
  UniformityFilter.calculate_of_arith prices period d hper hlen hbase hgain hstep

/-- Witness for the amended C6: prices `[10, 20, 30]` (constant increment
10) at period 3 score exactly `(100.0, 200.0)`. -/
theorem c6_constant_increment_scores_100_witness :
    UniformityFilter.calculate [(10 : ℚ), 20, 30] 3 = some (100, 200) := by
  have hwin : UniformityFilter.prices_period [(10 : ℚ), 20, 30] 3 = [10, 20, 30] := by
    norm_num [UniformityFilter.prices_period, pySliceLast]
  have hbase : UniformityFilter.base_price [(10 : ℚ), 20, 30] 3 = 10 := by
    rw [UniformityFilter.base_price, hwin]
    rfl
  have hcum : UniformityFilter.cumulative_pcts [(10 : ℚ), 20, 30] 3 = [0, 100, 200] := by
    unfold UniformityFilter.cumulative_pcts
    rw [hwin, hbase]
    norm_num
  have hgain : UniformityFilter.total_gain [(10 : ℚ), 20, 30] 3 = 200 := by
    rw [UniformityFilter.total_gain, hcum]
    rfl
  have hstep : ∀ i, i + 1 < 3 →
      (UniformityFilter.prices_period [(10 : ℚ), 20, 30] 3).getD (i + 1) 0 =
        (UniformityFilter.prices_period [(10 : ℚ), 20, 30] 3).getD i 0 + 10 := by
    intro i hi
    rw [hwin]
    have hior : i = 0 ∨ i = 1 := by omega
    rcases hior with rfl | rfl <;> norm_num
  have h := c6_constant_increment_scores_100 [(10 : ℚ), 20, 30] 3 10 (by norm_num)
    (by norm_num) (by rw [hbase]; norm_num) (by rw [hgain]; norm_num) hstep
  rw [h.2.2, hgain,
    show pyRound1 (200 : ℚ) = 200 from by norm_num [pyRound1, pyRoundInt, Int.fract, round_eq]]

lemma pySliceLast_map (c : ℚ) (l : List ℚ) (n : ℕ) :
    pySliceLast (l.map (fun p => c * p)) n = (pySliceLast l n).map (fun p => c * p) := by
  unfold pySliceLast
  rw [List.length_map]
  split_ifs
  · rfl
  · rw [List.map_drop]

/-- C10: scale invariance — multiplying every price by a positive constant
leaves the result of `calculate` unchanged (in exact arithmetic): the score
depends only on relative price changes. -/
theorem c10_scale_invariance (prices : List ℚ) (period : ℕ) (c : ℚ) (hc : 0 < c) :
    UniformityFilter.calculate (prices.map (fun p => c * p)) period =
      UniformityFilter.calculate prices period := by
  have hwin : UniformityFilter.prices_period (prices.map (fun p => c * p)) period =
      (UniformityFilter.prices_period prices period).map (fun p => c * p) :=
    pySliceLast_map c prices period
  have hbase : UniformityFilter.base_price (prices.map (fun p => c * p)) period =
      c * UniformityFilter.base_price prices period := by
    unfold UniformityFilter.base_price
    rw [hwin]
    cases UniformityFilter.prices_period prices period <;> simp
  have hcum : UniformityFilter.cumulative_pcts (prices.map (fun p => c * p)) period =
      UniformityFilter.cumulative_pcts prices period := by
    unfold UniformityFilter.cumulative_pcts
    rw [hwin, hbase, List.map_map]
    apply List.map_congr_left
    intro p _
    simp only [Function.comp_apply]
    rw [show c * p - c * UniformityFilter.base_price prices period =
      c * (p - UniformityFilter.base_price prices period) by ring,
      mul_div_mul_left _ _ (ne_of_gt hc)]
  have hgain : UniformityFilter.total_gain (prices.map (fun p => c * p)) period =
      UniformityFilter.total_gain prices period := by
    unfold UniformityFilter.total_gain
    rw [hcum]
  have hdaily : UniformityFilter.daily_uniform_gain (prices.map (fun p => c * p)) period =
      UniformityFilter.daily_uniform_gain prices period := by
    unfold UniformityFilter.daily_uniform_gain
    rw [hgain]
  have hideal : UniformityFilter.ideal_line (prices.map (fun p => c * p)) period =
      UniformityFilter.ideal_line prices period := by
    unfold UniformityFilter.ideal_line
    rw [hdaily]
  have hdev : UniformityFilter.total_deviation (prices.map (fun p => c * p)) period =
      UniformityFilter.total_deviation prices period := by
    unfold UniformityFilter.total_deviation
    rw [hcum, hideal]
  have hmax : UniformityFilter.max_possible_deviation (prices.map (fun p => c * p)) period =
      UniformityFilter.max_possible_deviation prices period := by
    unfold UniformityFilter.max_possible_deviation
    rw [hgain]
  have hnorm : UniformityFilter.normalized_deviation (prices.map (fun p => c * p)) period =
      UniformityFilter.normalized_deviation prices period := by
    unfold UniformityFilter.normalized_deviation
    rw [hdev, hmax]
  have huni : UniformityFilter.uniformity_score (prices.map (fun p => c * p)) period =
      UniformityFilter.uniformity_score prices period := by
    unfold UniformityFilter.uniformity_score UniformityFilter.raw_score
    rw [hnorm]
  unfold UniformityFilter.calculate
  simp only [List.length_map, hwin, hbase, hcum, hgain, huni, List.map_eq_nil_iff]
  by_cases hb : UniformityFilter.base_price prices period ≤ 0
  · simp only [if_pos hb, if_pos (mul_nonpos_iff.mpr (Or.inl ⟨hc.le, hb⟩))]
  · simp only [if_neg hb, if_neg (not_le.mpr (mul_pos hc (not_le.mp hb)))]

/-- Witness for C10: doubling the prices `[1, 2]` leaves the result
unchanged. -/
theorem c10_scale_invariance_witness :
    UniformityFilter.calculate [(2 : ℚ), 4] 2 = UniformityFilter.calculate [(1 : ℚ), 2] 2 := by
  rw [show [(2 : ℚ), 4] = [(1 : ℚ), 2].map (fun p => 2 * p) by norm_num]
  exact c10_scale_invariance [(1 : ℚ), 2] 2 2 (by norm_num)
